import Mathlib

/-!
Shallow embedding of `internvl_chat/eval/pope/evaluate_pope.py` and proofs
about its sharding sampler, dataset reader, evaluation loop, result
serialization and command-line preconditions.

Conventions: Python strings and file contents are `List Char`; Python ints
are `Int` (or `Nat` where the source value is a count); fallible code
returns `Option`/`Except`.  Image tensors are an abstract type parameter
`Pix`, since pixel data never influences the properties proved here.
-/

/-- A JSON scalar usable as a `question_id` (the question files carry
integer or string identifiers). -/
inductive QId where
  | qint : Int → QId
  | qstr : List Char → QId
deriving DecidableEq

/-- A minimal JSON value type, used to state what the serialized
prediction objects contain. -/
inductive JVal where
  | jint : Int → JVal
  | jstr : List Char → JVal
  | jobj : List (List Char × JVal) → JVal

/-- One prediction record, as appended by the evaluation loop:
`{'question_id': ..., 'text': pred, 'model_id': args.checkpoint, 'metadata': {}}`. -/
structure Prediction where
  question_id : QId
  text : List Char
  model_id : List Char
deriving DecidableEq

def QId.toJVal : QId → JVal
  | .qint n => .jint n
  | .qstr s => .jstr s

def keyQidName : List Char := "question_id".toList

def keyTextName : List Char := "text".toList

def keyModelName : List Char := "model_id".toList

def keyMetaName : List Char := "metadata".toList

/-- The association list (key, value) view of the Python dict built at
lines 141-146 of the source; dict insertion order is preserved. -/
def predToObj (p : Prediction) : List (List Char × JVal) :=
  [(keyQidName, p.question_id.toJVal),
   (keyTextName, JVal.jstr p.text),
   (keyModelName, JVal.jstr p.model_id),
   (keyMetaName, JVal.jobj [])]

def objOpen : Char := '\x7b'

def objClose : Char := '\x7d'

/-- JSON string escaping as `json.dumps` performs it on the characters that
require it for the round trip: `"` and `\` are backslash-escaped, all other
characters are emitted as-is. -/
def escapeChar (c : Char) : List Char :=
  if c = '"' then ['\\', '"'] else if c = '\\' then ['\\', '\\'] else [c]

def escapeStr (s : List Char) : List Char := s.flatMap escapeChar

/-- `json.dumps` of a string: quote, escaped body, quote. -/
def dumpsStr (s : List Char) : List Char := '"' :: escapeStr s ++ ['"']

/-- Decimal digits of a natural number, most significant first
(`json.dumps` of a non-negative int). -/
def natToChars (n : Nat) : List Char :=
  if n = 0 then ['0'] else ((Nat.digits 10 n).map Nat.digitChar).reverse

/-- `json.dumps` of an int: optional minus sign, then decimal digits. -/
def intToChars (n : Int) : List Char :=
  if n < 0 then '-' :: natToChars (-n).toNat else natToChars n.toNat

def dumpsQId : QId → List Char
  | .qint n => intToChars n
  | .qstr s => dumpsStr s

/-- Literal segment `"question_id": ` of a dumped prediction object. -/
def litQid : List Char := dumpsStr keyQidName ++ [':', ' ']

/-- Literal segment `, "text": ` of a dumped prediction object. -/
def litText : List Char := [',', ' '] ++ dumpsStr keyTextName ++ [':', ' ']

/-- Literal segment `, "model_id": ` of a dumped prediction object. -/
def litModel : List Char := [',', ' '] ++ dumpsStr keyModelName ++ [':', ' ']

/-- Literal closing segment `, "metadata": {}}` of a dumped prediction object. -/
def litMetaEnd : List Char :=
  [',', ' '] ++ dumpsStr keyMetaName ++ [':', ' '] ++ [objOpen, objClose, objClose]

/-- `json.dumps` of one prediction dict, with Python's default separators
`', '` and `': '` and dict insertion order. -/
def dumpsPred (p : Prediction) : List Char :=
  objOpen :: litQid ++ dumpsQId p.question_id ++ litText ++ dumpsStr p.text
    ++ litModel ++ dumpsStr p.model_id ++ litMetaEnd

/-- `', '.join` over already-dumped items, as in Python list dumping. -/
def joinSep : List (List Char) → List Char
  | [] => []
  | [x] => x
  | x :: y :: xs => x ++ [',', ' '] ++ joinSep (y :: xs)

/-- `json.dumps` of a list of prediction dicts: `[` items `]`. -/
def dumpsPredList (ps : List Prediction) : List Char :=
  '[' :: joinSep (ps.map dumpsPred) ++ [']']

/-- Consume an expected literal character sequence; `none` on mismatch
(a `json.loads` syntax error). -/
def dropLit : List Char → List Char → Option (List Char)
  | [], input => some input
  | _ :: _, [] => none
  | p :: ps, c :: cs => if c = p then dropLit ps cs else none

/-- Parse a JSON string body after the opening quote, handling the
backslash escapes of `"` and `\`; returns the decoded body and the
input remaining after the closing quote. -/
def parseStrBody : List Char → Option (List Char × List Char)
  | [] => none
  | c :: rest =>
    if c = '"' then some ([], rest)
    else if c = '\\' then
      match rest with
      | [] => none
      | e :: rest2 =>
        if e = '"' ∨ e = '\\' then
          (parseStrBody rest2).map (fun p => (e :: p.1, p.2))
        else none
    else (parseStrBody rest).map (fun p => (c :: p.1, p.2))

def digitVal (c : Char) : Nat := c.toNat - '0'.toNat

/-- Take the maximal leading run of decimal digits. -/
def takeDigits : List Char → List Char × List Char
  | [] => ([], [])
  | c :: cs =>
    if c.isDigit then
      let p := takeDigits cs
      (c :: p.1, p.2)
    else ([], c :: cs)

def charsToNat (ds : List Char) : Nat :=
  ds.foldl (fun acc c => acc * 10 + digitVal c) 0

/-- Parse a non-empty run of decimal digits as a natural number. -/
def parseNat (input : List Char) : Option (Nat × List Char) :=
  let p := takeDigits input
  if p.1 = [] then none else some (charsToNat p.1, p.2)

/-- Parse a JSON scalar identifier: a quoted string or a (possibly
negative) integer. -/
def parseQId (input : List Char) : Option (QId × List Char) :=
  match input with
  | [] => none
  | c :: rest =>
    if c = '"' then (parseStrBody rest).map (fun p => (QId.qstr p.1, p.2))
    else if c = '-' then (parseNat rest).map (fun p => (QId.qint (-(p.1 : Int)), p.2))
    else (parseNat (c :: rest)).map (fun p => (QId.qint (p.1 : Int), p.2))

/-- Parse one serialized prediction object in the exact shape `json.dumps`
produces for the dicts of this script. -/
def parsePred (input : List Char) : Option (Prediction × List Char) :=
  (dropLit (objOpen :: litQid) input).bind fun r1 =>
  (parseQId r1).bind fun pq =>
  (dropLit (litText ++ ['"']) pq.2).bind fun r3 =>
  (parseStrBody r3).bind fun pt =>
  (dropLit (litModel ++ ['"']) pt.2).bind fun r5 =>
  (parseStrBody r5).bind fun pm =>
  (dropLit litMetaEnd pm.2).map fun r7 =>
  ({ question_id := pq.1, text := pt.1, model_id := pm.1 }, r7)

/-- Parse a `, `-separated non-empty sequence of prediction objects.
`fuel` bounds the recursion; callers pass the input length, which always
suffices because each object consumes at least one character. -/
def parsePredsAux : Nat → List Char → Option (List Prediction × List Char)
  | 0, _ => none
  | fuel + 1, input =>
    (parsePred input).bind fun pr =>
      match pr.2 with
      | c1 :: c2 :: r2 =>
        if c1 = ',' ∧ c2 = ' ' then
          (parsePredsAux fuel r2).map fun pl => (pr.1 :: pl.1, pl.2)
        else some ([pr.1], pr.2)
      | _ => some ([pr.1], pr.2)

/-- `json.loads` restricted to the serialized prediction lists this script
exchanges: a JSON array of prediction objects, consuming the whole input. -/
def parsePredList (input : List Char) : Option (List Prediction) :=
  match input with
  | c :: rest =>
    if c = '[' then
      if rest = [']'] then some []
      else
        (parsePredsAux rest.length rest).bind fun pl =>
          if pl.2 = [']'] then some pl.1 else none
    else none
  | [] => none

/-- `InferenceSampler._get_local_indices`, line 75: the per-rank shard
sizes `[shard_size + int(r < left) for r in range(world_size)]`. -/
def shard_sizes (total_size world_size : Nat) : List Nat :=
  (List.range world_size).map
    (fun r => total_size / world_size + if r < total_size % world_size then 1 else 0)

/-- `begin = sum(shard_sizes[:rank])` (line 78). -/
def shard_begin (total_size world_size rank : Nat) : Nat :=
  ((shard_sizes total_size world_size).take rank).sum

/-- `end = min(sum(shard_sizes[:rank + 1]), total_size)` (line 79). -/
def shard_end (total_size world_size rank : Nat) : Nat :=
  min ((shard_sizes total_size world_size).take (rank + 1)).sum total_size

/-- `InferenceSampler._get_local_indices(total_size, world_size, rank)`:
the ordered list of global indices `range(begin, end)` owned by `rank`. -/
def get_local_indices (total_size world_size rank : Nat) : List Nat :=
  List.range' (shard_begin total_size world_size rank)
    (shard_end total_size world_size rank - shard_begin total_size world_size rank)

/-- Message of the bare `assert size > 0` in `InferenceSampler.__init__`. -/
def assertSizeMsg : List Char := "AssertionError".toList

/-- The sampler object: `_size`, `_rank`, `_world_size`, `_local_indices`. -/
structure InferenceSampler where
  size : Int
  rank : Nat
  world_size : Nat
  local_indices : List Nat

/-- `InferenceSampler.__init__(size)` with the ambient distributed rank and
world size made explicit: stores the size, asserts `size > 0`, and computes
the local index range; an assertion failure yields no sampler object. -/
def InferenceSampler.init (size : Int) (world_size rank : Nat) :
    Except (List Char) InferenceSampler :=
  if 0 < size then
    Except.ok
      { size := size, rank := rank, world_size := world_size,
        local_indices := get_local_indices size.toNat world_size rank }
  else Except.error assertSizeMsg

/-- Python `file.readlines()`: maximal newline-terminated chunks, plus a
final chunk when the content does not end with a newline.  `acc` holds the
reversed characters of the chunk being scanned. -/
def readlinesAux : List Char → List Char → List (List Char)
  | [], acc => if acc = [] then [] else [acc.reverse]
  | c :: cs, acc =>
    if c = '\n' then (acc.reverse ++ ['\n']) :: readlinesAux cs []
    else readlinesAux cs (c :: acc)

def readlines (content : List Char) : List (List Char) := readlinesAux content []

/-- One item returned by `VQADataset.__getitem__`: identifier, prompt-suffixed
question, transformed pixels, optional ground-truth `annotation` field
(here named `ann`). -/
structure Item (Pix : Type) where
  question_id : QId
  question : List Char
  pixel_values : Pix
  ann : Option (List Char)

/-- A parsed line of the question file: fields `image`, `text`,
`question_id`, and optional `answer`. -/
structure RawRecord where
  image : List Char
  text : List Char
  question_id : QId
  answer : Option (List Char)

/-- `VQADataset`: the stored root path, the result of `readlines()` on the
question file, the prompt, and the (external) image transform. -/
structure VQADataset (Pix : Type) where
  root : List Char
  data : List (List Char)
  prompt : List Char
  transform : List Char → Pix

/-- `VQADataset.__init__(root, data, prompt, ...)` with the question file's
content passed in place of its path: `self.data = open(data).readlines()`. -/
def VQADataset.init (Pix : Type) (root : List Char) (fileContent : List Char)
    (prompt : List Char) (transform : List Char → Pix) : VQADataset Pix :=
  { root := root, data := readlines fileContent, prompt := prompt,
    transform := transform }

/-- `VQADataset.__len__`: `len(self.data)`. -/
def VQADataset.len {Pix : Type} (d : VQADataset Pix) : Nat := d.data.length

/-- `VQADataset.__getitem__` with the JSON parse of the line abstracted to
its parsed `RawRecord`: resolves the image path against the root, applies
the transform, and appends `' ' + self.prompt` to the question text. -/
def VQADataset.getitem {Pix : Type} (d : VQADataset Pix) (rec : RawRecord) :
    Item Pix :=
  { question_id := rec.question_id,
    question := rec.text ++ ' ' :: d.prompt,
    pixel_values := d.transform (d.root ++ '/' :: rec.image),
    ann := rec.answer }

/-- `collate_fn(batches)`: the four per-field lists, with the pixel tensor
concatenation modeled as the list of per-item pixel values. -/
def collate_fn {Pix : Type} (batches : List (Item Pix)) :
    List Pix × List (List Char) × List QId × List (Option (List Char)) :=
  (batches.map (fun b => b.pixel_values),
   batches.map (fun b => b.question),
   batches.map (fun b => b.question_id),
   batches.map (fun b => b.ann))

/-- The body of the evaluation loop for one batch (source lines 122-146),
with the model call `model.chat(...)` abstracted as `chat`: the model is
invoked once on `questions[0]`, `answers = [pred]`, and the
`zip(question_ids, answers, annotations)` loop appends dicts whose `text`
is `pred`.  An empty batch (which would raise `IndexError` on
`questions[0]`) never occurs: the data loader yields non-empty batches. -/
def run_batch {Pix : Type} (chat : List Char → List Char)
    (checkpoint : List Char) (batch : List (Item Pix)) : List Prediction :=
  let c := collate_fn batch
  let questions := c.2.1
  let question_ids := c.2.2.1
  let annotations := c.2.2.2
  match questions with
  | [] => []
  | q0 :: _ =>
    let pred := chat q0
    let answers := [pred]
    (question_ids.zip (answers.zip annotations)).map
      (fun z => { question_id := z.1, text := pred, model_id := checkpoint })

/-- One rank's `outputs` list for a dataset of `total` items indexed by
`items`, with the enforced batch size 1: the loop walks the sampler's
local indices in order, each batch being a single item. -/
def rank_outputs {Pix : Type} (chat : List Char → List Char)
    (checkpoint : List Char) (items : Nat → Item Pix)
    (total world rank : Nat) : List Prediction :=
  (get_local_indices total world rank).flatMap
    (fun i => run_batch chat checkpoint [items i])

/-- The gather-and-merge step (source lines 148-155): every rank's
`json.dumps(outputs)` string is all-gathered in rank order, each string is
`json.loads`-ed back, and the lists are chained; a parse failure (never
reached) would propagate as `none`. -/
def merged_outputs {Pix : Type} (chat : List Char → List Char)
    (checkpoint : List Char) (items : Nat → Item Pix)
    (total world : Nat) : Option (List Prediction) :=
  ((List.range world).mapM
      (fun r => parsePredList (dumpsPredList
        (rank_outputs chat checkpoint items total world r)))).map List.flatten

/-- Content of the results file written on rank 0:
`json.dump(merged_outputs, open(results_file, 'w'))`. -/
def results_file_content {Pix : Type} (chat : List Char → List Char)
    (checkpoint : List Char) (items : Nat → Item Pix)
    (total world : Nat) : Option (List Char) :=
  (merged_outputs chat checkpoint items total world).map dumpsPredList

/-- The parsed command-line arguments of the script. -/
structure Args where
  checkpoint : List Char
  datasets : List Char
  batch_size : Int
  num_workers : Int
  num_beams : Nat
  template : List Char
  temperature : ℚ
  out_dir : List Char
  seed : Int

/-- One dataset entry of `ds_collections`: generation length bounds. -/
structure DSConfig where
  max_new_tokens : Nat
  min_new_tokens : Nat

/-- `ds_collections['pope']`'s generation length bounds. -/
def ds_collections_pope : DSConfig := { max_new_tokens := 100, min_new_tokens := 1 }

/-- The `generation_config` dict built each iteration (source lines 123-130). -/
structure GenerationConfig where
  num_beams : Nat
  max_new_tokens : Nat
  min_new_tokens : Nat
  length_penalty : Int
  do_sample : Bool
  temperature : ℚ

/-- `generation_config = dict(num_beams=..., max_new_tokens=...,
min_new_tokens=..., length_penalty=1, do_sample=True if args.temperature > 0
else False, temperature=args.temperature)`. -/
def generation_config (args : Args) (ds : DSConfig) : GenerationConfig :=
  { num_beams := args.num_beams,
    max_new_tokens := ds.max_new_tokens,
    min_new_tokens := ds.min_new_tokens,
    length_penalty := 1,
    do_sample := if args.temperature > 0 then true else false,
    temperature := args.temperature }

/-- Observable steps of the `__main__` block and of `evaluate_chat_model`. -/
inductive Event where
  | makedirs : List Char → Event
  | printDatasets : Event
  | initProcessGroup : Event
  | setDevice : Event
  | datasetConstructed : Event
  | modelInference : Event
  | barrier : Event
  | allGather : Event
  | writeResults : Event
deriving DecidableEq

/-- Message of `assert args.batch_size == 1, 'Only batch size 1 is supported'`. -/
def assertBatchMsg : List Char := "Only batch size 1 is supported".toList

/-- Event trace of `evaluate_chat_model` for one dataset whose local shard
holds `nExamples` items: dataset construction, one model call per batch,
then barrier, all-gather and the rank-0 write. -/
def evaluate_events (nExamples : Nat) : List Event :=
  Event.datasetConstructed ::
    (List.replicate nExamples Event.modelInference
      ++ [Event.barrier, Event.allGather, Event.writeResults])

/-- The `__main__` block after argument parsing (source lines 184-201):
`os.makedirs`, dataset-list split and print, the batch-size assertion,
process-group and device setup, then `evaluate_chat_model()`.  Returns the
events that happened and, when the assertion fires, its message. -/
def main_events (args : Args) (nExamples : Nat) :
    List Event × Option (List Char) :=
  let pre := [Event.makedirs args.out_dir, Event.printDatasets]
  if args.batch_size = 1 then
    (pre ++ Event.initProcessGroup :: Event.setDevice ::
        evaluate_events nExamples, none)
  else (pre, some assertBatchMsg)

/-- A concrete argument record with batch size 2, used to exhibit the
assertion failure. -/
def argsBatch2 : Args where
  checkpoint := []
  datasets := []
  batch_size := 2
  num_workers := 1
  num_beams := 5
  template := []
  temperature := 0
  out_dir := []
  seed := 0

/-- Modelled from the spec: the claim's count of non-empty lines of a file
(lines being the newline-separated chunks; blank lines do not count). -/
def nonEmptyLineCount (content : List Char) : Nat :=
  ((content.splitOn '\n').filter (fun l => l ≠ [])).length

/-- Count of lines remaining in `cs` when a chunk is already open (`b`):
auxiliary to relate `readlines` to a newline count. -/
def countLinesFrom : List Char → Bool → Nat
  | [], b => if b then 1 else 0
  | c :: cs, _ => if c = '\n' then 1 + countLinesFrom cs false else countLinesFrom cs true

/-- Total number of lines of a file in the `readlines` sense: every
newline-terminated chunk, plus a final unterminated non-empty chunk. -/
def totalLineCount (content : List Char) : Nat :=
  content.count '\n' +
    (if content.getLast? = some '\n' then 0 else if content = [] then 0 else 1)

lemma sum_map_range_succ (f : Nat → Nat) (k : Nat) :
    ((List.range (k + 1)).map f).sum = ((List.range k).map f).sum + f k := by
  rw [List.range_succ, List.map_append, List.sum_append]
  simp

lemma shard_sizes_take_eq (t w k : Nat) (hk : k ≤ w) :
    (shard_sizes t w).take k
      = (List.range k).map (fun r => t / w + if r < t % w then 1 else 0) := by
  unfold shard_sizes
  rw [← List.map_take, List.take_range, min_eq_left hk]

lemma shard_begin_zero (t w : Nat) : shard_begin t w 0 = 0 := by
  simp [shard_begin]

lemma shard_begin_succ (t w r : Nat) (hr : r < w) :
    shard_begin t w (r + 1)
      = shard_begin t w r + (t / w + if r < t % w then 1 else 0) := by
  unfold shard_begin
  rw [shard_sizes_take_eq t w (r + 1) hr, sum_map_range_succ,
    ← shard_sizes_take_eq t w r (Nat.le_of_lt hr)]

lemma shard_begin_eq (t w : Nat) : ∀ k, k ≤ w →
    shard_begin t w k = k * (t / w) + min k (t % w) := by
  intro k
  induction k with
  | zero => intro _; simp [shard_begin_zero]
  | succ n ih =>
    intro hk
    rw [shard_begin_succ t w n hk, ih (by omega), Nat.succ_mul]
    split_ifs with h <;> omega

lemma shard_begin_world (t w : Nat) (hw : 1 ≤ w) : shard_begin t w w = t := by
  rw [shard_begin_eq t w w le_rfl]
  have h1 : t % w < w := Nat.mod_lt _ hw
  have h3 : w * (t / w) + t % w = t := Nat.div_add_mod t w
  have h2 : min w (t % w) = t % w := min_eq_right (le_of_lt h1)
  rw [h2]
  exact h3

lemma shard_begin_mono (t w : Nat) {k k' : Nat} (hk : k ≤ k') (hk' : k' ≤ w) :
    shard_begin t w k ≤ shard_begin t w k' := by
  rw [shard_begin_eq t w k (le_trans hk hk'), shard_begin_eq t w k' hk']
  have h1 : k * (t / w) ≤ k' * (t / w) := Nat.mul_le_mul_right _ hk
  have h2 : min k (t % w) ≤ min k' (t % w) := by omega
  omega

lemma shard_begin_le_total (t w k : Nat) (hw : 1 ≤ w) (hk : k ≤ w) :
    shard_begin t w k ≤ t := by
  calc shard_begin t w k ≤ shard_begin t w w := shard_begin_mono t w hk le_rfl
  _ = t := shard_begin_world t w hw

lemma shard_end_eq (t w r : Nat) (hw : 1 ≤ w) (hr : r < w) :
    shard_end t w r = shard_begin t w (r + 1) := by
  show min ((shard_sizes t w).take (r + 1)).sum t = shard_begin t w (r + 1)
  exact min_eq_left (shard_begin_le_total t w (r + 1) hw hr)

lemma mem_get_local_indices (t w r i : Nat) (hw : 1 ≤ w) (hr : r < w) :
    i ∈ get_local_indices t w r
      ↔ shard_begin t w r ≤ i ∧ i < shard_begin t w (r + 1) := by
  unfold get_local_indices
  rw [shard_end_eq t w r hw hr, List.mem_range'_1]
  have hle : shard_begin t w r ≤ shard_begin t w (r + 1) :=
    shard_begin_mono t w (Nat.le_succ r) hr
  omega

lemma length_get_local_indices (t w r : Nat) (hw : 1 ≤ w) (hr : r < w) :
    (get_local_indices t w r).length
      = t / w + if r < t % w then 1 else 0 := by
  unfold get_local_indices
  rw [List.length_range', shard_end_eq t w r hw hr, shard_begin_succ t w r hr]
  generalize t / w = q
  split_ifs with h <;> omega

lemma exists_shard_aux (t w i : Nat) : ∀ k, i < shard_begin t w k →
    ∃ r, r < k ∧ shard_begin t w r ≤ i ∧ i < shard_begin t w (r + 1) := by
  intro k
  induction k with
  | zero => intro h; rw [shard_begin_zero] at h; omega
  | succ n ih =>
    intro h
    rcases Nat.lt_or_ge i (shard_begin t w n) with h' | h'
    · obtain ⟨r, hr, h1, h2⟩ := ih h'
      exact ⟨r, Nat.lt_succ_of_lt hr, h1, h2⟩
    · exact ⟨n, Nat.lt_succ_self n, h', h⟩

lemma exists_shard (t w i : Nat) (hw : 1 ≤ w) (hi : i < t) :
    ∃ r, r < w ∧ shard_begin t w r ≤ i ∧ i < shard_begin t w (r + 1) :=
  exists_shard_aux t w i w (by rw [shard_begin_world t w hw]; exact hi)

lemma shard_unique (t w : Nat) {r r' i : Nat} (hr : r < w) (hr' : r' < w)
    (h1 : shard_begin t w r ≤ i) (h2 : i < shard_begin t w (r + 1))
    (h1' : shard_begin t w r' ≤ i) (h2' : i < shard_begin t w (r' + 1)) :
    r = r' := by
  by_contra hne
  rcases Nat.lt_or_ge r r' with h | h
  · have : shard_begin t w (r + 1) ≤ shard_begin t w r' :=
      shard_begin_mono t w h (Nat.le_of_lt hr')
    omega
  · have hlt : r' < r := by omega
    have : shard_begin t w (r' + 1) ≤ shard_begin t w r :=
      shard_begin_mono t w hlt (Nat.le_of_lt hr)
    omega

lemma range'_glue (s m n : Nat) :
    List.range' s m ++ List.range' (s + m) n = List.range' s (m + n) := by
  rw [List.range'_append_1, Nat.add_comm n m]

lemma get_local_indices_eq_range' (t w r : Nat) (hw : 1 ≤ w) (hr : r < w) :
    get_local_indices t w r
      = List.range' (shard_begin t w r)
          (shard_begin t w (r + 1) - shard_begin t w r) := by
  unfold get_local_indices
  rw [shard_end_eq t w r hw hr]

lemma flatMap_local_indices (t w : Nat) (hw : 1 ≤ w) : ∀ k, k ≤ w →
    (List.range k).flatMap (get_local_indices t w)
      = List.range' 0 (shard_begin t w k) := by
  intro k
  induction k with
  | zero => intro _; simp [shard_begin_zero]
  | succ n ih =>
    intro hk
    rw [List.range_succ, List.flatMap_append, ih (by omega)]
    have hb : shard_begin t w n ≤ shard_begin t w (n + 1) :=
      shard_begin_mono t w (Nat.le_succ n) hk
    simp only [List.flatMap_cons, List.flatMap_nil, List.append_nil]
    rw [get_local_indices_eq_range' t w n hw hk]
    have e : List.range' (shard_begin t w n)
        (shard_begin t w (n + 1) - shard_begin t w n)
        = List.range' (0 + shard_begin t w n)
            (shard_begin t w (n + 1) - shard_begin t w n) := by
      rw [Nat.zero_add]
    rw [e, range'_glue]
    congr 1
    omega

lemma join_all_ranks (t w : Nat) (hw : 1 ≤ w) :
    (List.range w).flatMap (get_local_indices t w) = List.range t := by
  rw [flatMap_local_indices t w hw w le_rfl, shard_begin_world t w hw,
    List.range_eq_range']

lemma get_local_indices_one (t : Nat) : get_local_indices t 1 0 = List.range t := by
  have h := join_all_ranks t 1 le_rfl
  rw [show List.range 1 = [0] from rfl] at h
  simpa using h

lemma dropLit_append (l r : List Char) : dropLit l (l ++ r) = some r := by
  induction l with
  | nil => rfl
  | cons c cs ih => simp [dropLit, ih]

lemma parseStrBody_quote (rest : List Char) :
    parseStrBody ('"' :: rest) = some ([], rest) := by
  rw [parseStrBody.eq_def]
  simp

lemma parseStrBody_escaped (e : Char) (rest : List Char) (he : e = '"' ∨ e = '\\') :
    parseStrBody ('\\' :: e :: rest)
      = (parseStrBody rest).map (fun p => (e :: p.1, p.2)) := by
  rw [parseStrBody.eq_def]
  simp [he]

lemma parseStrBody_other (c : Char) (rest : List Char) (h1 : c ≠ '"') (h2 : c ≠ '\\') :
    parseStrBody (c :: rest)
      = (parseStrBody rest).map (fun p => (c :: p.1, p.2)) := by
  rw [parseStrBody.eq_def]
  simp [h1, h2]

lemma parseStrBody_escape (s rest : List Char) :
    parseStrBody (escapeStr s ++ '"' :: rest) = some (s, rest) := by
  induction s with
  | nil => simpa [escapeStr] using parseStrBody_quote rest
  | cons c cs ih =>
    by_cases h1 : c = '"'
    · subst h1
      have e : escapeStr ('"' :: cs) = '\\' :: '"' :: escapeStr cs := by
        simp [escapeStr, escapeChar]
      rw [e, List.cons_append, List.cons_append,
        parseStrBody_escaped _ _ (Or.inl rfl), ih]
      rfl
    · by_cases h2 : c = '\\'
      · subst h2
        have e : escapeStr ('\\' :: cs) = '\\' :: '\\' :: escapeStr cs := by
          simp [escapeStr, escapeChar]
        rw [e, List.cons_append, List.cons_append,
          parseStrBody_escaped _ _ (Or.inr rfl), ih]
        rfl
      · have e : escapeStr (c :: cs) = c :: escapeStr cs := by
          simp [escapeStr, escapeChar, h1, h2]
        rw [e, List.cons_append, parseStrBody_other c _ h1 h2, ih]
        rfl

lemma digitChar_isDigit : ∀ d, d < 10 → (Nat.digitChar d).isDigit = true := by
  decide

lemma digitVal_digitChar : ∀ d, d < 10 → digitVal (Nat.digitChar d) = d := by
  decide

lemma natToChars_ne_nil (n : Nat) : natToChars n ≠ [] := by
  unfold natToChars
  split
  · simp
  · next h =>
    have hd : Nat.digits 10 n ≠ [] := Nat.digits_ne_nil_iff_ne_zero.mpr h
    simpa using hd

lemma natToChars_digits (n : Nat) : ∀ c ∈ natToChars n, c.isDigit = true := by
  unfold natToChars
  split
  · intro c hc
    simp at hc
    subst hc
    decide
  · intro c hc
    rw [List.mem_reverse, List.mem_map] at hc
    obtain ⟨d, hd, rfl⟩ := hc
    exact digitChar_isDigit d (Nat.digits_lt_base (by norm_num) hd)

lemma natToChars_cons (m : Nat) :
    ∃ c cs, natToChars m = c :: cs ∧ c.isDigit = true := by
  rcases h : natToChars m with _ | ⟨c, cs⟩
  · exact absurd h (natToChars_ne_nil m)
  · refine ⟨c, cs, rfl, natToChars_digits m c ?_⟩
    rw [h]
    exact List.mem_cons_self c cs

lemma charsToNat_digitList (L : List Nat) (hL : ∀ d ∈ L, d < 10) :
    charsToNat ((L.map Nat.digitChar).reverse) = Nat.ofDigits 10 L := by
  induction L with
  | nil => simp [charsToNat]
  | cons d L ih =>
    rw [List.map_cons, List.reverse_cons]
    unfold charsToNat at ih ⊢
    rw [List.foldl_append]
    rw [ih (fun x hx => hL x (List.mem_cons_of_mem d hx))]
    rw [Nat.ofDigits_cons]
    simp only [List.foldl_cons, List.foldl_nil]
    rw [digitVal_digitChar d (hL d (List.mem_cons_self d L))]
    ring

lemma charsToNat_natToChars (n : Nat) : charsToNat (natToChars n) = n := by
  unfold natToChars
  split
  · next h => subst h; rfl
  · rw [charsToNat_digitList _ (fun d hd => Nat.digits_lt_base (by norm_num) hd),
      Nat.ofDigits_digits]

lemma takeDigits_append (ds r : List Char) (hds : ∀ c ∈ ds, c.isDigit = true)
    (hr : ∀ c cs, r = c :: cs → c.isDigit = false) :
    takeDigits (ds ++ r) = (ds, r) := by
  induction ds with
  | nil =>
    rw [List.nil_append]
    cases r with
    | nil => rfl
    | cons c cs => simp [takeDigits, hr c cs rfl]
  | cons c cs ih =>
    have hc := hds c (List.mem_cons_self c cs)
    rw [List.cons_append, takeDigits]
    simp [hc, ih (fun x hx => hds x (List.mem_cons_of_mem c hx))]

lemma parseNat_append (n : Nat) (r : List Char)
    (hr : ∀ c cs, r = c :: cs → c.isDigit = false) :
    parseNat (natToChars n ++ r) = some (n, r) := by
  unfold parseNat
  rw [takeDigits_append _ _ (natToChars_digits n) hr]
  simp [natToChars_ne_nil n, charsToNat_natToChars n]

lemma parseQId_cons (c : Char) (rest : List Char) :
    parseQId (c :: rest)
      = if c = '"' then (parseStrBody rest).map (fun p => (QId.qstr p.1, p.2))
        else if c = '-' then
          (parseNat rest).map (fun p => (QId.qint (-(p.1 : Int)), p.2))
        else (parseNat (c :: rest)).map (fun p => (QId.qint (p.1 : Int), p.2)) := by
  rfl

lemma isDigit_ne_quote {c : Char} (h : c.isDigit = true) : c ≠ '"' := by
  intro e
  subst e
  exact absurd h (by decide)

lemma isDigit_ne_dash {c : Char} (h : c.isDigit = true) : c ≠ '-' := by
  intro e
  subst e
  exact absurd h (by decide)

lemma parseQId_append (q : QId) (r : List Char)
    (hr : ∀ c cs, r = c :: cs → c.isDigit = false) :
    parseQId (dumpsQId q ++ r) = some (q, r) := by
  cases q with
  | qstr s =>
    show parseQId (dumpsStr s ++ r) = _
    rw [dumpsStr, List.cons_append, List.cons_append, parseQId_cons, if_pos rfl,
      List.append_assoc, List.singleton_append, parseStrBody_escape]
    rfl
  | qint n =>
    show parseQId (intToChars n ++ r) = _
    rw [intToChars]
    by_cases hn : n < 0
    · rw [if_pos hn, List.cons_append, parseQId_cons,
        if_neg (by decide), if_pos rfl, parseNat_append _ r hr]
      have h2 : ((((-n).toNat : Nat) : Int)) = -n := Int.toNat_of_nonneg (by omega)
      simp [h2]
    · rw [if_neg hn]
      obtain ⟨c, cs, hc, hcd⟩ := natToChars_cons n.toNat
      rw [hc, List.cons_append, parseQId_cons,
        if_neg (isDigit_ne_quote hcd), if_neg (isDigit_ne_dash hcd),
        ← List.cons_append, ← hc, parseNat_append _ r hr]
      have h2 : (((n.toNat : Nat) : Int)) = n := Int.toNat_of_nonneg (by omega)
      simp [h2]

lemma headNotDigit_litText (Y : List Char) :
    ∀ c cs, (litText ++ ['"']) ++ Y = c :: cs → c.isDigit = false := by
  intro c cs h
  have e : (litText ++ ['"']) ++ Y
      = ',' :: (' ' :: (dumpsStr keyTextName ++ [':', ' ', '"'] ++ Y)) := by
    simp [litText, List.append_assoc]
  rw [e] at h
  injection h with h1 _
  rw [← h1]
  decide

lemma parsePred_append (p : Prediction) (r : List Char) :
    parsePred (dumpsPred p ++ r) = some (p, r) := by
  obtain ⟨q, txt, mid⟩ := p
  have e1 : dumpsPred ⟨q, txt, mid⟩ ++ r
      = (objOpen :: litQid)
        ++ (dumpsQId q
          ++ ((litText ++ ['"'])
            ++ (escapeStr txt
              ++ '"' :: ((litModel ++ ['"'])
                ++ (escapeStr mid
                  ++ '"' :: (litMetaEnd ++ r)))))) := by
    simp [dumpsPred, dumpsStr, List.append_assoc]
  unfold parsePred
  rw [e1, dropLit_append]
  simp only [Option.some_bind]
  rw [parseQId_append q _ (headNotDigit_litText _)]
  simp only [Option.some_bind]
  rw [dropLit_append]
  simp only [Option.some_bind]
  rw [parseStrBody_escape]
  simp only [Option.some_bind]
  rw [dropLit_append]
  simp only [Option.some_bind]
  rw [parseStrBody_escape]
  simp only [Option.some_bind]
  rw [dropLit_append]
  rfl


lemma joinSep_cons_cons (x y : List Char) (xs : List (List Char)) :
    joinSep (x :: y :: xs) = x ++ [',', ' '] ++ joinSep (y :: xs) := rfl

lemma dumpsPred_length_pos (p : Prediction) : 0 < (dumpsPred p).length := by
  simp [dumpsPred]

lemma joinSep_length_ge (ps : List Prediction) :
    ps.length ≤ (joinSep (ps.map dumpsPred)).length := by
  induction ps with
  | nil => simp [joinSep]
  | cons p ps ih =>
    cases ps with
    | nil => simpa [joinSep] using dumpsPred_length_pos p
    | cons p2 ps2 =>
      rw [List.map_cons, List.map_cons, joinSep_cons_cons, ← List.map_cons]
      have h1 := dumpsPred_length_pos p
      simp only [List.length_append, List.length_cons] at *
      omega

lemma parsePredsAux_dumps : ∀ (ps : List Prediction) (fuel : Nat), ps ≠ [] →
    ps.length ≤ fuel →
    parsePredsAux fuel (joinSep (ps.map dumpsPred) ++ [']'])
      = some (ps, [']']) := by
  intro ps
  induction ps with
  | nil => intro fuel h _; exact absurd rfl h
  | cons p ps ih =>
    intro fuel _ hfuel
    cases fuel with
    | zero => simp at hfuel
    | succ f =>
      cases ps with
      | nil =>
        rw [List.map_cons, List.map_nil,
          show joinSep [dumpsPred p] = dumpsPred p from rfl]
        simp only [parsePredsAux]
        rw [parsePred_append p [']']]
        rfl
      | cons p2 ps2 =>
        have e : joinSep ((p :: p2 :: ps2).map dumpsPred) ++ [']']
            = dumpsPred p
              ++ (',' :: ' ' :: (joinSep ((p2 :: ps2).map dumpsPred) ++ [']'])) := by
          rw [List.map_cons, List.map_cons, joinSep_cons_cons, ← List.map_cons]
          simp [List.append_assoc]
        rw [e]
        simp only [parsePredsAux]
        rw [parsePred_append p _]
        simp only [Option.some_bind]
        have hlen : (p2 :: ps2).length ≤ f := by
          simp only [List.length_cons] at hfuel ⊢
          omega
        rw [if_pos (⟨trivial, trivial⟩ : True ∧ True), ih f (by simp) hlen]
        rfl

lemma parsePredList_cons (c : Char) (rest : List Char) :
    parsePredList (c :: rest)
      = if c = '[' then
          (if rest = [']'] then some []
           else
             (parsePredsAux rest.length rest).bind fun pl =>
               if pl.2 = [']'] then some pl.1 else none)
        else none := rfl

lemma parsePredList_dumps (ps : List Prediction) :
    parsePredList (dumpsPredList ps) = some ps := by
  cases ps with
  | nil => rfl
  | cons p ps =>
    rw [dumpsPredList]
    have hge := joinSep_length_ge (p :: ps)
    have hne : joinSep ((p :: ps).map dumpsPred) ++ [']'] ≠ [']'] := by
      intro h
      have hl := congrArg List.length h
      simp only [List.length_append, List.length_singleton] at hl
      simp only [List.length_cons] at hge
      omega
    rw [List.cons_append, parsePredList_cons, if_pos rfl, if_neg hne]
    have hlen : (p :: ps).length
        ≤ (joinSep ((p :: ps).map dumpsPred) ++ [']']).length := by
      simp only [List.length_append, List.length_singleton, List.length_cons] at *
      omega
    rw [parsePredsAux_dumps (p :: ps) _ (by simp) hlen]
    rfl

lemma run_batch_cons {Pix : Type} (chat : List Char → List Char)
    (ckpt : List Char) (b : Item Pix) (rest : List (Item Pix)) :
    run_batch chat ckpt (b :: rest)
      = [{ question_id := b.question_id, text := chat b.question,
           model_id := ckpt }] := by
  rw [run_batch.eq_def]
  simp only [collate_fn, List.map_cons]
  simp [List.zip_cons_cons, List.zip_nil_right]

lemma rank_outputs_eq_map {Pix : Type} (chat : List Char → List Char)
    (ckpt : List Char) (items : Nat → Item Pix) (t w r : Nat) :
    rank_outputs chat ckpt items t w r
      = (get_local_indices t w r).map (fun i =>
          { question_id := (items i).question_id,
            text := chat (items i).question, model_id := ckpt }) := by
  unfold rank_outputs
  simp only [run_batch_cons]
  induction get_local_indices t w r with
  | nil => rfl
  | cons i l ih => simp_all

lemma mapM_option_map {α β : Type} (f : α → Option β) (g : α → β) :
    ∀ l : List α, (∀ a ∈ l, f a = some (g a)) → l.mapM f = some (l.map g) := by
  intro l
  induction l with
  | nil => intro _; rfl
  | cons a l ih =>
    intro h
    rw [List.mapM_cons, h a (List.mem_cons_self a l),
      ih (fun x hx => h x (List.mem_cons_of_mem _ hx))]
    rfl

lemma merged_outputs_eq {Pix : Type} (chat : List Char → List Char)
    (ckpt : List Char) (items : Nat → Item Pix) (t w : Nat) :
    merged_outputs chat ckpt items t w
      = some ((List.range w).flatMap (rank_outputs chat ckpt items t w)) := by
  unfold merged_outputs
  rw [mapM_option_map _ (fun r => rank_outputs chat ckpt items t w r)
    (List.range w) (fun r _ => parsePredList_dumps _)]
  rfl

lemma merged_eq_single {Pix : Type} (chat : List Char → List Char)
    (ckpt : List Char) (items : Nat → Item Pix) (t w : Nat) (hw : 1 ≤ w) :
    merged_outputs chat ckpt items t w
      = some (rank_outputs chat ckpt items t 1 0) := by
  rw [merged_outputs_eq]
  congr 1
  calc (List.range w).flatMap (rank_outputs chat ckpt items t w)
      = (List.range w).flatMap (fun r => (get_local_indices t w r).map (fun i =>
          { question_id := (items i).question_id,
            text := chat (items i).question, model_id := ckpt })) := by
        exact congrArg _ (funext fun r => rank_outputs_eq_map chat ckpt items t w r)
    _ = ((List.range w).flatMap (get_local_indices t w)).map (fun i =>
          { question_id := (items i).question_id,
            text := chat (items i).question, model_id := ckpt }) := by
        rw [List.map_flatMap]
    _ = (List.range t).map (fun i =>
          { question_id := (items i).question_id,
            text := chat (items i).question, model_id := ckpt }) := by
        rw [join_all_ranks t w hw]
    _ = (get_local_indices t 1 0).map (fun i =>
          { question_id := (items i).question_id,
            text := chat (items i).question, model_id := ckpt }) := by
        rw [get_local_indices_one]
    _ = rank_outputs chat ckpt items t 1 0 := by
        rw [rank_outputs_eq_map]

lemma readlinesAux_length (cs : List Char) : ∀ acc : List Char,
    (readlinesAux cs acc).length = countLinesFrom cs (!acc.isEmpty) := by
  induction cs with
  | nil =>
    intro acc
    cases acc <;> simp [readlinesAux, countLinesFrom]
  | cons c cs ih =>
    intro acc
    by_cases h : c = '\n'
    · subst h
      rw [show readlinesAux ('\n' :: cs) acc
          = (acc.reverse ++ ['\n']) :: readlinesAux cs [] from by
        rw [readlinesAux.eq_def]; simp]
      rw [show countLinesFrom ('\n' :: cs) (!acc.isEmpty)
          = 1 + countLinesFrom cs false from by
        rw [countLinesFrom.eq_def]; simp]
      simp [ih []]
      omega
    · rw [show readlinesAux (c :: cs) acc = readlinesAux cs (c :: acc) from by
        rw [readlinesAux.eq_def]; simp [h]]
      rw [show countLinesFrom (c :: cs) (!acc.isEmpty)
          = countLinesFrom cs true from by
        rw [countLinesFrom.eq_def]; simp [h]]
      rw [ih (c :: acc)]
      rfl

lemma countLinesFrom_eq (cs : List Char) : ∀ b : Bool,
    countLinesFrom cs b
      = cs.count '\n'
        + (if cs.getLast? = some '\n' then 0
           else if cs = [] then (if b then 1 else 0) else 1) := by
  induction cs with
  | nil => intro b; cases b <;> simp [countLinesFrom]
  | cons c cs ih =>
    intro b
    rw [show countLinesFrom (c :: cs) b
        = if c = '\n' then 1 + countLinesFrom cs false
          else countLinesFrom cs true from by
      rw [countLinesFrom.eq_def]]
    cases cs with
    | nil =>
      by_cases h : c = '\n'
      · subst h; simp [countLinesFrom]
      · simp [countLinesFrom, h, List.count_cons]
    | cons c2 cs2 =>
      have hne : (c2 :: cs2 : List Char) ≠ [] := by simp
      have hne2 : (c :: c2 :: cs2 : List Char) ≠ [] := by simp
      rw [ih false, ih true, List.getLast?_cons_cons, if_neg hne, if_neg hne,
        if_neg hne2]
      simp only [List.count_cons, beq_iff_eq]
      by_cases h : c = '\n' <;> simp [h]
      all_goals omega

/-- C1: for every `total_size > 0`, `world_size ≥ 1`, the shard index ranges
partition `[0, total_size)` exactly — every index below the total lies in
exactly one rank's shard, every shard index is below the total, any two
ranks' shard sizes differ by at most 1, and shard sizes are non-increasing
in the rank (larger shards go to lower ranks). -/
theorem C1_shard_partition (total world : Nat) (_htotal : 0 < total)
    (hworld : 1 ≤ world) :
    (∀ i, i < total → ∃! r, r < world ∧ i ∈ get_local_indices total world r) ∧
    (∀ r, r < world → ∀ i ∈ get_local_indices total world r, i < total) ∧
    (∀ r r', r < world → r' < world →
      (get_local_indices total world r).length
        ≤ (get_local_indices total world r').length + 1) ∧
    (∀ r r', r ≤ r' → r' < world →
      (get_local_indices total world r').length
        ≤ (get_local_indices total world r).length) := by
  refine ⟨?_, ?_, ?_, ?_⟩
  · intro i hi
    obtain ⟨r, hr, h1, h2⟩ := exists_shard total world i hworld hi
    refine ⟨r, ⟨hr, (mem_get_local_indices total world r i hworld hr).mpr
      ⟨h1, h2⟩⟩, ?_⟩
    rintro r' ⟨hr', hmem⟩
    obtain ⟨h1', h2'⟩ := (mem_get_local_indices total world r' i hworld hr').mp hmem
    exact shard_unique total world hr' hr h1' h2' h1 h2
  · intro r hr i hmem
    obtain ⟨h1, h2⟩ := (mem_get_local_indices total world r i hworld hr).mp hmem
    calc i < shard_begin total world (r + 1) := h2
    _ ≤ total := shard_begin_le_total total world (r + 1) hworld hr
  · intro r r' hr hr'
    rw [length_get_local_indices total world r hworld hr,
      length_get_local_indices total world r' hworld hr']
    generalize total / world = q
    split_ifs <;> omega
  · intro r r' hrr hr'
    have hr : r < world := lt_of_le_of_lt hrr hr'
    rw [length_get_local_indices total world r hworld hr,
      length_get_local_indices total world r' hworld hr']
    generalize total / world = q
    split_ifs <;> omega

/-- Witness for C1 at `total_size = 10`, `world_size = 3` (the spec's own
example: shard sizes 4, 3, 3). -/
theorem C1_shard_partition_witness :
    (∀ i, i < 10 → ∃! r, r < 3 ∧ i ∈ get_local_indices 10 3 r) ∧
    (∀ r, r < 3 → ∀ i ∈ get_local_indices 10 3 r, i < 10) ∧
    (∀ r r', r < 3 → r' < 3 →
      (get_local_indices 10 3 r).length
        ≤ (get_local_indices 10 3 r').length + 1) ∧
    (∀ r r', r ≤ r' → r' < 3 →
      (get_local_indices 10 3 r').length ≤ (get_local_indices 10 3 r).length) :=
  C1_shard_partition 10 3 (by decide) (by decide)

/-- C2: gathering the per-rank prediction lists in increasing rank order
through the serialize/gather/deserialize/chain step yields exactly the
prediction sequence of a single-process run (`world_size = 1`, rank 0) over
the full dataset, each rank iterating its shard in local order. -/
theorem C2_gather_refines_single_run {Pix : Type} (chat : List Char → List Char)
    (ckpt : List Char) (items : Nat → Item Pix) (total world : Nat)
    (hworld : 1 ≤ world) :
    merged_outputs chat ckpt items total world
      = some (rank_outputs chat ckpt items total 1 0) :=
  merged_eq_single chat ckpt items total world hworld

/-- Witness for C2: 5 items over 2 ranks against the single-process run. -/
theorem C2_gather_refines_single_run_witness :
    merged_outputs (fun q => 'A' :: q) ['c', 'k']
      (fun i => { question_id := QId.qint i, question := ['q'],
                  pixel_values := (), ann := none }) 5 2
      = some (rank_outputs (fun q => 'A' :: q) ['c', 'k']
          (fun i => { question_id := QId.qint i, question := ['q'],
                      pixel_values := (), ann := none }) 5 1 0) :=
  C2_gather_refines_single_run _ _ _ 5 2 (by decide)

/-- C3 counterexample: `__len__` returns `len(open(data).readlines())`,
which counts blank lines too; on the file content `"a\n\nb"` the reader
length is 3 while the file has 2 non-empty lines, refuting the claim that
the length always equals the number of non-empty lines. -/
theorem C3_len_counterexample :
    (VQADataset.init Unit [] ['a', '\n', '\n', 'b'] [] (fun _ => ())).len = 3 ∧
    nonEmptyLineCount ['a', '\n', '\n', 'b'] = 2 ∧
    (VQADataset.init Unit [] ['a', '\n', '\n', 'b'] [] (fun _ => ())).len
      ≠ nonEmptyLineCount ['a', '\n', '\n', 'b'] := by
  refine ⟨by decide, by decide, by decide⟩

/-- C3 amended: the reader length equals the total number of lines of the
file — the newline count, plus one more when the content is non-empty and
does not end with a newline — counting blank lines. -/
theorem C3_len_eq_total_lines {Pix : Type} (root prompt content : List Char)
    (transform : List Char → Pix) :
    (VQADataset.init Pix root content prompt transform).len
      = totalLineCount content := by
  show (readlines content).length = _
  rw [show readlines content = readlinesAux content [] from rfl,
    readlinesAux_length content [],
    show (!([] : List Char).isEmpty) = false from rfl,
    countLinesFrom_eq content false]
  unfold totalLineCount
  simp

/-- C4: with a parsed batch size other than 1 the `__main__` block fails at
the assertion with its message, and its trace contains neither a dataset
construction nor a model inference, whatever the evaluation would have
contributed. -/
theorem C4_batch_size_assertion (args : Args) (nExamples : Nat)
    (h : args.batch_size ≠ 1) :
    (main_events args nExamples).2 = some assertBatchMsg ∧
    Event.datasetConstructed ∉ (main_events args nExamples).1 ∧
    Event.modelInference ∉ (main_events args nExamples).1 := by
  unfold main_events
  rw [if_neg h]
  refine ⟨rfl, ?_, ?_⟩ <;> simp

/-- Witness for C4 at batch size 2. -/
theorem C4_batch_size_assertion_witness :
    (main_events argsBatch2 3).2 = some assertBatchMsg ∧
    Event.datasetConstructed ∉ (main_events argsBatch2 3).1 ∧
    Event.modelInference ∉ (main_events argsBatch2 3).1 :=
  C4_batch_size_assertion argsBatch2 3 (by decide)

/-- C5: constructing the sampler with `total_size ≤ 0` hits `assert size > 0`
and produces no sampler; any positive size yields a sampler holding the
computed local index range. -/
theorem C5_sampler_size_assertion (size : Int) (world_size rank : Nat) :
    (size ≤ 0 → InferenceSampler.init size world_size rank
        = Except.error assertSizeMsg) ∧
    (0 < size → ∃ s : InferenceSampler,
        InferenceSampler.init size world_size rank = Except.ok s ∧
        s.local_indices = get_local_indices size.toNat world_size rank) := by
  constructor
  · intro h
    unfold InferenceSampler.init
    rw [if_neg (by omega)]
  · intro h
    unfold InferenceSampler.init
    rw [if_pos h]
    exact ⟨_, rfl, rfl⟩

/-- Witness for C5 at sizes -3 (assertion failure) and 7 (success). -/
theorem C5_sampler_size_assertion_witness :
    InferenceSampler.init (-3) 2 0 = Except.error assertSizeMsg ∧
    ∃ s : InferenceSampler, InferenceSampler.init 7 2 1 = Except.ok s ∧
      s.local_indices = get_local_indices (7 : Int).toNat 2 1 :=
  ⟨(C5_sampler_size_assertion (-3) 2 0).1 (by decide),
   (C5_sampler_size_assertion 7 2 1).2 (by decide)⟩

/-- C6: the generation configuration enables sampling exactly when the
temperature argument is positive (deterministic decoding otherwise), takes
its beam count from the arguments, and its min/max new token bounds from
the dataset configuration. -/
theorem C6_generation_config (args : Args) (ds : DSConfig) :
    (generation_config args ds).do_sample = decide (0 < args.temperature) ∧
    (generation_config args ds).temperature = args.temperature ∧
    (generation_config args ds).num_beams = args.num_beams ∧
    (generation_config args ds).max_new_tokens = ds.max_new_tokens ∧
    (generation_config args ds).min_new_tokens = ds.min_new_tokens := by
  refine ⟨?_, rfl, rfl, rfl, rfl⟩
  unfold generation_config
  by_cases h : args.temperature > 0 <;> simp [h]

/-- C7: the question returned by `__getitem__` is the record's `text` field
with a fixed suffix appended — a space followed by the dataset's prompt —
independent of the record. -/
theorem C7_question_prompt_suffix {Pix : Type} (d : VQADataset Pix) :
    ∃ suffix : List Char, ∀ rec : RawRecord,
      (d.getitem rec).question = rec.text ++ suffix :=
  ⟨' ' :: d.prompt, fun _ => rfl⟩

/-- C8: the merged predictions are objects with exactly the keys
`question_id`, `text`, `model_id`, `metadata` — a record's identifier, the
text generated for that record's question, the checkpoint identifier, and
the empty object — and the results file content is the JSON array
serialization of that list. -/
theorem C8_prediction_objects {Pix : Type} (chat : List Char → List Char)
    (ckpt : List Char) (items : Nat → Item Pix) (total world : Nat)
    (hworld : 1 ≤ world) :
    ∃ merged : List Prediction,
      merged_outputs chat ckpt items total world = some merged ∧
      results_file_content chat ckpt items total world
        = some (dumpsPredList merged) ∧
      ∀ p ∈ merged,
        (predToObj p).map Prod.fst
          = [keyQidName, keyTextName, keyModelName, keyMetaName] ∧
        (predToObj p).lookup keyMetaName = some (JVal.jobj []) ∧
        ∃ i, i < total ∧ p.question_id = (items i).question_id ∧
          p.text = chat (items i).question ∧ p.model_id = ckpt := by
  refine ⟨rank_outputs chat ckpt items total 1 0,
    merged_eq_single chat ckpt items total world hworld, ?_, ?_⟩
  · unfold results_file_content
    rw [merged_eq_single chat ckpt items total world hworld]
    rfl
  · intro p hp
    rw [rank_outputs_eq_map, get_local_indices_one, List.mem_map] at hp
    obtain ⟨i, hi, rfl⟩ := hp
    rw [List.mem_range] at hi
    exact ⟨rfl, rfl, i, hi, rfl, rfl, rfl⟩

/-- Witness for C8: 3 items over 2 ranks. -/
theorem C8_prediction_objects_witness :
    ∃ merged : List Prediction,
      merged_outputs (fun q => 'A' :: q) ['c', 'k']
        (fun i => { question_id := QId.qint i, question := ['q'],
                    pixel_values := (), ann := none }) 3 2 = some merged ∧
      results_file_content (fun q => 'A' :: q) ['c', 'k']
        (fun i => { question_id := QId.qint i, question := ['q'],
                    pixel_values := (), ann := none }) 3 2
        = some (dumpsPredList merged) ∧
      ∀ p ∈ merged,
        (predToObj p).map Prod.fst
          = [keyQidName, keyTextName, keyModelName, keyMetaName] ∧
        (predToObj p).lookup keyMetaName = some (JVal.jobj []) ∧
        ∃ i : Nat, i < 3 ∧ p.question_id = QId.qint (i : Int) ∧
          p.text = 'A' :: ['q'] ∧ p.model_id = ['c', 'k'] :=
  C8_prediction_objects _ _ _ 3 2 (by decide)

/-- C9: serializing a prediction list with `json.dumps` and parsing the
string back with `json.loads` yields a list equal to the original, field
for field. -/
theorem C9_serialization_round_trip (ps : List Prediction) :
    parsePredList (dumpsPredList ps) = some ps :=
  parsePredList_dumps ps

/-- C10: in each non-empty batch the model is invoked only on the first
question (the evaluated expression depends on `chat` at `b.question` only),
and the one prediction the `zip` with the singleton answers list appends
carries that single generated text; for the enforced batch size 1 the
prediction's text is thus the model's answer to its own question. -/
theorem C10_batch_uses_first_question {Pix : Type}
    (chat : List Char → List Char) (ckpt : List Char) (b : Item Pix)
    (rest : List (Item Pix)) :
    run_batch chat ckpt (b :: rest)
      = [{ question_id := b.question_id, text := chat b.question,
           model_id := ckpt }] :=
  run_batch_cons chat ckpt b rest
